import Mathlib

/-!
Verification of the octra-wallet extension (TypeScript sources) against its
natural-language specification.

Shallow embedding conventions:
- Byte strings are `List Nat` with every element below 256.
- JavaScript numbers that are in practice non-negative integers are `Nat`.
- The AES-256-GCM authenticated cipher provided by WebCrypto is modelled as an
  ideal authenticated cipher: a ciphertext abstractly carries its plaintext,
  the key it was produced under and the nonce; decryption succeeds exactly
  when key and nonce match. PBKDF2-SHA256 (2,000,000 iterations) is modelled
  as an ideal key-derivation function: the derived key is identified with the
  (password, salt) pair, so distinct inputs yield distinct keys.
- The transport encodings used by the vault are modelled at their natural
  level of abstraction: the hex encoding of the salt is implemented
  concretely (the source manipulates it textually), while `btoa`/`atob`
  base64 transport of the iv and ciphertext, which the source only ever
  round-trips, is abstracted by carrying the raw bytes.
- Ed25519 public-key derivation (tweetnacl `nacl.sign.keyPair.fromSeed`) is
  implemented concretely: SHA-512, scalar clamping and fixed-base scalar
  multiplication on edwards25519, following RFC 8032 section 5.1.5, which is
  the algorithm tweetnacl implements.
-/

set_option maxRecDepth 100000

namespace OctraWallet

/-! ## Bytes and hex encoding

`bytesToHex` embeds `Array.from(salt).map(b => b.toString(16).padStart(2, '0')).join('')`
(vault.ts line 64); `hexToBytes` embeds
`new Uint8Array(vault.salt.match(/.{2}/g)!.map(b => parseInt(b, 16)))`
(vault.ts line 70). JavaScript `toString(16)` produces lowercase digits and
`parseInt(_, 16)` accepts both cases. -/

/-- Value of one hex digit character, as `parseInt` reads it (0 for other
characters; the vault only ever parses hex it produced itself). -/
def hexDigitVal (c : Char) : Nat :=
  if '0' ≤ c ∧ c ≤ '9' then c.toNat - 48
  else if 'a' ≤ c ∧ c ≤ 'f' then c.toNat - 87
  else if 'A' ≤ c ∧ c ≤ 'F' then c.toNat - 55
  else 0

/-- JavaScript `b.toString(16).padStart(2, '0')` for a byte value. -/
def byteToHex (b : Nat) : String :=
  (if b < 16 then "0" else "") ++ String.mk (Nat.toDigits 16 b)

/-- Hex encoding of a byte list: per-byte hex joined with the empty separator. -/
def bytesToHex : List Nat → String
  | [] => ""
  | b :: t => byteToHex b ++ bytesToHex t

/-- Successive 2-character groups of a character list, each parsed as one hex
byte; a trailing odd character is dropped, as the `/.{2}/g` match does. -/
def hexPairs : List Char → List Nat
  | c1 :: c2 :: rest => (hexDigitVal c1 * 16 + hexDigitVal c2) :: hexPairs rest
  | _ => []

/-- Decoding of a hex string to bytes, as vault.ts line 70 performs it. -/
def hexToBytes (s : String) : List Nat := hexPairs s.data

/-- A byte list: every element is below 256. -/
def IsBytes (l : List Nat) : Prop := ∀ b ∈ l, b < 256

instance : DecidablePred IsBytes := fun l =>
  inferInstanceAs (Decidable (∀ b ∈ l, b < 256))

/-! ## SHA-512 (FIPS 180-4)

Used by tweetnacl to expand a 32-byte Ed25519 seed. Words are `Nat` reduced
modulo `2 ^ 64` wherever JavaScript/C would wrap. -/

namespace Sha512

/-- Mask for 64-bit words. -/
def mask64 : Nat := 2 ^ 64 - 1

/-- Right rotation of a 64-bit word. -/
def rotr (x n : Nat) : Nat := ((x >>> n) ||| (x <<< (64 - n))) &&& mask64

/-- Ch(x, y, z). -/
def ch (x y z : Nat) : Nat := (x &&& y) ^^^ ((x ^^^ mask64) &&& z)

/-- Maj(x, y, z). -/
def maj (x y z : Nat) : Nat := (x &&& y) ^^^ (x &&& z) ^^^ (y &&& z)

/-- Big sigma 0. -/
def bsig0 (x : Nat) : Nat := rotr x 28 ^^^ rotr x 34 ^^^ rotr x 39

/-- Big sigma 1. -/
def bsig1 (x : Nat) : Nat := rotr x 14 ^^^ rotr x 18 ^^^ rotr x 41

/-- Small sigma 0. -/
def ssig0 (x : Nat) : Nat := rotr x 1 ^^^ rotr x 8 ^^^ (x >>> 7)

/-- Small sigma 1. -/
def ssig1 (x : Nat) : Nat := rotr x 19 ^^^ rotr x 61 ^^^ (x >>> 6)

/-- The 80 SHA-512 round constants of FIPS 180-4 (decimal). -/
def K : List Nat :=
  [4794697086780616226, 8158064640168781261, 13096744586834688815,
   16840607885511220156, 4131703408338449720, 6480981068601479193,
   10538285296894168987, 12329834152419229976, 15566598209576043074,
   1334009975649890238, 2608012711638119052, 6128411473006802146,
   8268148722764581231, 9286055187155687089, 11230858885718282805,
   13951009754708518548, 16472876342353939154, 17275323862435702243,
   1135362057144423861, 2597628984639134821, 3308224258029322869,
   5365058923640841347, 6679025012923562964, 8573033837759648693,
   10970295158949994411, 12119686244451234320, 12683024718118986047,
   13788192230050041572, 14330467153632333762, 15395433587784984357,
   489312712824947311, 1452737877330783856, 2861767655752347644,
   3322285676063803686, 5560940570517711597, 5996557281743188959,
   7280758554555802590, 8532644243296465576, 9350256976987008742,
   10552545826968843579, 11727347734174303076, 12113106623233404929,
   14000437183269869457, 14369950271660146224, 15101387698204529176,
   15463397548674623760, 17586052441742319658, 1182934255886127544,
   1847814050463011016, 2177327727835720531, 2830643537854262169,
   3796741975233480872, 4115178125766777443, 5681478168544905931,
   6601373596472566643, 7507060721942968483, 8399075790359081724,
   8693463985226723168, 9568029438360202098, 10144078919501101548,
   10430055236837252648, 11840083180663258601, 13761210420658862357,
   14299343276471374635, 14566680578165727644, 15097957966210449927,
   16922976911328602910, 17689382322260857208, 500013540394364858,
   748580250866718886, 1242879168328830382, 1977374033974150939,
   2944078676154940804, 3659926193048069267, 4368137639120453308,
   4836135668995329356, 5532061633213252278, 6448918945643986474,
   6902733635092675308, 7801388544844847127]

/-- The eight initial hash values of FIPS 180-4 (decimal). -/
def H0 : List Nat :=
  [7640891576956012808, 13503953896175478587, 4354685564936845355,
   11912009170470909681, 5840696475078001361, 11170449401992604703,
   2270897969802886507, 6620516959819538809]

/-- Big-endian interpretation of a byte list as one number. -/
def beBytesToNat (l : List Nat) : Nat := l.foldl (fun acc b => acc * 256 + b) 0

/-- `k` big-endian bytes of `n` (most significant first). -/
def natToBEBytes : Nat → Nat → List Nat
  | 0, _ => []
  | j + 1, n => natToBEBytes j (n / 256) ++ [n % 256]

/-- Split a list into chunks of `k` elements (fuel-bounded by the list length). -/
def chunksAux (k : Nat) : Nat → List Nat → List (List Nat)
  | 0, _ => []
  | _, [] => []
  | fuel + 1, l => l.take k :: chunksAux k fuel (l.drop k)

/-- Split a list into chunks of `k` elements. -/
def chunks (k : Nat) (l : List Nat) : List (List Nat) := chunksAux k l.length l

/-- SHA-512 message padding: append `0x80`, zeros to 112 mod 128, then the
128-bit big-endian bit length. -/
def pad (msg : List Nat) : List Nat :=
  let l := msg.length
  let zeros := (128 + 112 - (l + 1) % 128) % 128
  msg ++ [0x80] ++ List.replicate zeros 0 ++ natToBEBytes 16 (l * 8)

/-- Message-schedule extension: `revW` holds words most-recent first; each step
prepends `w[t] = ssig1 w[t-2] + w[t-7] + ssig0 w[t-15] + w[t-16] mod 2^64`. -/
def schedAux : Nat → List Nat → List Nat
  | 0, revW => revW.reverse
  | fuel + 1, revW =>
    let wt := (ssig1 (revW.getD 1 0) + revW.getD 6 0 + ssig0 (revW.getD 14 0)
               + revW.getD 15 0) &&& mask64
    schedAux fuel (wt :: revW)

/-- The 80-word message schedule of one 16-word block. -/
def schedule (w16 : List Nat) : List Nat := schedAux 64 w16.reverse

/-- Working state of the compression function. -/
structure St where
  a : Nat
  b : Nat
  c : Nat
  d : Nat
  e : Nat
  f : Nat
  g : Nat
  h : Nat

/-- One compression round with round constant `kt` and schedule word `wt`. -/
def round (s : St) (kt wt : Nat) : St :=
  let t1 := (s.h + bsig1 s.e + ch s.e s.f s.g + kt + wt) &&& mask64
  let t2 := (bsig0 s.a + maj s.a s.b s.c) &&& mask64
  { a := (t1 + t2) &&& mask64, b := s.a, c := s.b, d := s.c,
    e := (s.d + t1) &&& mask64, f := s.e, g := s.f, h := s.g }

/-- Run the 80 rounds over paired constants and schedule words. -/
def roundsAux : List Nat → List Nat → St → St
  | kt :: ks, wt :: ws, s => roundsAux ks ws (round s kt wt)
  | _, _, s => s

/-- Compress one 128-byte block into the chaining state (eight words). -/
def compress (h : List Nat) (block : List Nat) : List Nat :=
  let w16 := (chunks 8 block).map beBytesToNat
  let w := schedule w16
  let s0 : St := { a := h.getD 0 0, b := h.getD 1 0, c := h.getD 2 0, d := h.getD 3 0,
                   e := h.getD 4 0, f := h.getD 5 0, g := h.getD 6 0, h := h.getD 7 0 }
  let s := roundsAux K w s0
  [(h.getD 0 0 + s.a) &&& mask64, (h.getD 1 0 + s.b) &&& mask64,
   (h.getD 2 0 + s.c) &&& mask64, (h.getD 3 0 + s.d) &&& mask64,
   (h.getD 4 0 + s.e) &&& mask64, (h.getD 5 0 + s.f) &&& mask64,
   (h.getD 6 0 + s.g) &&& mask64, (h.getD 7 0 + s.h) &&& mask64]

/-- SHA-512 digest (64 bytes) of a byte-list message. -/
def sha512 (msg : List Nat) : List Nat :=
  let final := (chunks 128 (pad msg)).foldl compress H0
  final.flatMap (natToBEBytes 8)

end Sha512

/-! ## Ed25519 public-key derivation (RFC 8032 section 5.1.5)

This is the function tweetnacl computes in `nacl.sign.keyPair.fromSeed`:
`h = SHA-512(seed)`, clamp the first 32 bytes into a scalar, multiply the
edwards25519 base point, and encode the result. -/

namespace Ed25519

/-- The field prime `2^255 - 19`. -/
def p : Nat := 2 ^ 255 - 19

/-- The curve constant `d = -121665/121666 mod p`. -/
def dConst : Nat :=
  37095705934669439343138083508754565189542113879843219016388785533085940283555

/-- Field addition. -/
def fadd (a b : Nat) : Nat := (a + b) % p

/-- Field subtraction (inputs already reduced modulo `p`). -/
def fsub (a b : Nat) : Nat := (a + p - b) % p

/-- Field multiplication. -/
def fmul (a b : Nat) : Nat := a * b % p

/-- Fuel-bounded binary exponentiation modulo `p`. -/
def fpowAux : Nat → Nat → Nat → Nat → Nat
  | 0, _, _, acc => acc
  | fuel + 1, b, e, acc =>
    if e = 0 then acc
    else fpowAux fuel (b * b % p) (e / 2) (if e % 2 = 1 then acc * b % p else acc)

/-- Exponentiation modulo `p` (300 squarings cover any exponent below `2^300`). -/
def fpow (b e : Nat) : Nat := fpowAux 300 (b % p) e 1

/-- Field inverse by Fermat. -/
def finv (z : Nat) : Nat := fpow z (p - 2)

/-- A curve point in extended homogeneous coordinates `(X : Y : Z : T)`. -/
structure Pt where
  x : Nat
  y : Nat
  z : Nat
  t : Nat

/-- `2 * d mod p`. -/
def d2 : Nat := 2 * dConst % p

/-- Point addition (RFC 8032 section 5.1.4). -/
def ptAdd (P Q : Pt) : Pt :=
  let A := fmul (fsub P.y P.x) (fsub Q.y Q.x)
  let B := fmul (fadd P.y P.x) (fadd Q.y Q.x)
  let C := fmul (fmul P.t Q.t) d2
  let D := fmul (fadd P.z P.z) Q.z
  let E := fsub B A
  let F := fsub D C
  let G := fadd D C
  let H := fadd B A
  { x := fmul E F, y := fmul G H, z := fmul F G, t := fmul E H }

/-- Point doubling (RFC 8032 section 5.1.4). -/
def ptDouble (P : Pt) : Pt :=
  let A := fmul P.x P.x
  let B := fmul P.y P.y
  let C := fmul 2 (fmul P.z P.z)
  let H := fadd A B
  let E := fsub H (fmul (fadd P.x P.y) (fadd P.x P.y))
  let G := fsub A B
  let F := fadd C G
  { x := fmul E F, y := fmul G H, z := fmul F G, t := fmul E H }

/-- The neutral element. -/
def neutral : Pt := { x := 0, y := 1, z := 1, t := 0 }

/-- Fuel-bounded double-and-add scalar multiplication, least significant bit
first. -/
def smAux : Nat → Nat → Pt → Pt → Pt
  | 0, _, _, acc => acc
  | fuel + 1, e, q, acc =>
    if e = 0 then acc
    else smAux fuel (e / 2) (ptDouble q) (if e % 2 = 1 then ptAdd acc q else acc)

/-- Scalar multiplication `e * Q`. -/
def scalarMul (e : Nat) (q : Pt) : Pt := smAux 300 e q neutral

/-- The edwards25519 base point `B`. -/
def basePoint : Pt :=
  let bx : Nat :=
    15112221349535400772501151409588531511454012693041857206046113283949847762202
  let by' : Nat :=
    46316835694926478169428394003475163141307993866256225615783033603165251855960
  { x := bx, y := by', z := 1, t := fmul bx by' }

/-- Little-endian interpretation of a byte list as one number. -/
def leBytesToNat (l : List Nat) : Nat := l.foldr (fun b acc => b + 256 * acc) 0

/-- `k` little-endian bytes of `n` (least significant first). -/
def natToLEBytes : Nat → Nat → List Nat
  | 0, _ => []
  | j + 1, n => n % 256 :: natToLEBytes j (n / 256)

/-- Point encoding: 32 little-endian bytes of `y`, with the top bit carrying
the parity of `x`. -/
def encodePoint (P : Pt) : List Nat :=
  let zi := finv P.z
  let x := fmul P.x zi
  let y := fmul P.y zi
  natToLEBytes 32 (y + x % 2 * 2 ^ 255)

/-- Scalar clamping: clear bits 0, 1, 2 and 255, set bit 254. -/
def clamp (s : Nat) : Nat := (s &&& (2 ^ 255 - 8)) ||| 2 ^ 254

/-- The Ed25519 public key of a 32-byte seed (RFC 8032 section 5.1.5; what
`nacl.sign.keyPair.fromSeed(seed).publicKey` returns). -/
def pubFromSeed (seed : List Nat) : List Nat :=
  let h := Sha512.sha512 seed
  let a := clamp (leBytesToNat (h.take 32))
  encodePoint (scalarMul a basePoint)

end Ed25519

/-! ## Keyring (OctraKeyring.fromSecretKeyBytes)

Embeds the raw-secret import path of the keyring. The source additionally
base64-encodes the two key parts and derives the textual address from the
public key; those steps are outside the claims treated here and are omitted
from the record (the claims speak about the key bytes). -/

namespace OctraKeyring

/-- The key material produced by the raw-secret import path: the full 64-byte
secret and the 32-byte public key, before base64 encoding. -/
structure RawKeyPair where
  privateKey : List Nat
  publicKey : List Nat
deriving DecidableEq

/-- Key import failure. -/
inductive KeyError where
  | invalidKeyLength (n : Nat)
deriving DecidableEq

/-- tweetnacl `nacl.sign.keyPair.fromSeed`: the full secret key is the seed
followed by the derived public key. -/
def naclKeyPairFromSeed (seed : List Nat) : List Nat × List Nat :=
  let pub := Ed25519.pubFromSeed seed
  (seed ++ pub, pub)

/-- Embeds `OctraKeyring.fromSecretKeyBytes` (keyring lines 47-69): a 32-byte
input is expanded as a seed; a 64-byte input is taken as the full secret key
with its `slice(32)` as the public key; any other length throws
`Invalid private key length: n`. -/
def fromSecretKeyBytes (secretKey : List Nat) : Except KeyError RawKeyPair :=
  if secretKey.length = 32 then
    let kp := naclKeyPairFromSeed secretKey
    .ok { privateKey := kp.1, publicKey := kp.2 }
  else if secretKey.length = 64 then
    .ok { privateKey := secretKey, publicKey := secretKey.drop 32 }
  else
    .error (.invalidKeyLength secretKey.length)

end OctraKeyring

/-! ## Transaction builder (builder.ts)

The transaction record carries the fields of `OctraTransaction`. In the
source `nonce` and `timestamp` are JavaScript numbers interpolated into a
template literal; `nonce` is a non-negative integer (rendered in decimal,
which `toString` matches) and `timestamp` is modelled by its decimal
rendering (for example `"1700000000.5"`), since only that rendering enters
the signed message. -/

structure OctraTransaction where
  from_ : String
  to_ : String
  amount : String
  nonce : Nat
  ou : String
  timestamp : String
deriving DecidableEq

/-- A signed transaction: the transaction fields plus signature bytes and the
(base64) public key, as `TransactionBuilder.sign` returns them (the base64
encoding of the signature is omitted; the claim concerns the signed bytes). -/
structure SignedTransaction extends OctraTransaction where
  signature : List Nat
  public_key : String

/-- UTF-8 bytes of a string, as `new TextEncoder().encode` produces them. -/
def utf8Bytes (s : String) : List Nat := s.toUTF8.toList.map (fun b => b.toNat)

/-- Embeds the template literal of builder.ts line 36: the exact message
string whose UTF-8 bytes are handed to `OctraKeyring.sign`. -/
def signMessage (tx : OctraTransaction) : String :=
  "\x7b\"from\":\"" ++ tx.from_ ++ "\",\"to_\":\"" ++ tx.to_ ++ "\",\"amount\":\""
    ++ tx.amount ++ "\",\"nonce\":" ++ toString tx.nonce ++ ",\"ou\":\"" ++ tx.ou
    ++ "\",\"timestamp\":" ++ tx.timestamp ++ "\x7d"

namespace TransactionBuilder

/-- Embeds `TransactionBuilder.sign` (builder.ts lines 30-47), parameterised
over the Ed25519 detached-signature primitive `edSign` (message bytes and
base64 secret key to signature bytes): the message bytes are the UTF-8
encoding of `signMessage`. -/
def sign (edSign : List Nat → String → List Nat) (tx : OctraTransaction)
    (privateKeyBase64 publicKeyBase64 : String) : SignedTransaction :=
  { tx with
    signature := edSign (utf8Bytes (signMessage tx)) privateKeyBase64,
    public_key := publicKeyBase64 }

end TransactionBuilder

/-- One JSON member with an already rendered value. -/
def jsonField (k v : String) : String := "\"" ++ k ++ "\":" ++ v

/-- A JSON string value (the wallet never escapes, and neither does the spec
literal: values are spliced verbatim between quotes). -/
def jsonQuoted (s : String) : String := "\"" ++ s ++ "\""

/-- Modelled from the spec: the signing payload as the specification words it
— a JSON object holding exactly the members from, to_, amount, nonce, ou,
timestamp in that order, with from, to_, amount and ou quoted and nonce and
timestamp unquoted, independent of any object-key serialization order. -/
def specSigningPayload (tx : OctraTransaction) : String :=
  "\x7b" ++ String.intercalate ","
    [jsonField "from" (jsonQuoted tx.from_),
     jsonField "to_" (jsonQuoted tx.to_),
     jsonField "amount" (jsonQuoted tx.amount),
     jsonField "nonce" (toString tx.nonce),
     jsonField "ou" (jsonQuoted tx.ou),
     jsonField "timestamp" tx.timestamp] ++ "\x7d"

/-! ## Vault (vault.ts)

The WebCrypto AES-256-GCM cipher is modelled as an ideal authenticated
cipher and PBKDF2 as an ideal key-derivation function (see the file header).
The vault plaintext type is a parameter: the claims about `encryptData` and
`decryptData` instantiate it with `String` exactly as in the source, while
the `VaultService` state machine instantiates it with `WalletData`
(`JSON.stringify`/`JSON.parse`, which the service applies around the cipher,
form a bijection between wallet records and their JSON strings and are
abstracted by carrying the record). -/

namespace Vault

/-- An ideal PBKDF2-SHA256 derived key: identified with its inputs, so
distinct (password, salt) pairs give distinct keys. -/
structure DerivedKey where
  password : String
  salt : List Nat
deriving DecidableEq

/-- An ideal AES-GCM ciphertext: abstractly carries the plaintext, the key
and the nonce it was produced under. -/
structure AesGcmBlob (α : Type) where
  key : DerivedKey
  iv : List Nat
  plaintext : α
deriving DecidableEq

/-- The persisted vault blob (vault.ts lines 12-16): ciphertext and iv (whose
base64 transport encoding is abstracted) and the hex-encoded salt, textual as
in the source. -/
structure EncryptedVault (α : Type) where
  encrypted : AesGcmBlob α
  iv : List Nat
  salt : String
deriving DecidableEq

/-- Embeds `deriveKey` (vault.ts lines 26-44) as an ideal KDF. -/
def deriveKey (password : String) (salt : List Nat) : DerivedKey :=
  { password := password, salt := salt }

/-- Ideal AES-GCM decryption: the authentication check succeeds exactly when
key and nonce match the ones the blob was produced under. -/
def gcmDecrypt {α : Type} [DecidableEq α] (blob : AesGcmBlob α) (key : DerivedKey)
    (iv : List Nat) : Option α :=
  if blob.key = key ∧ blob.iv = iv then some blob.plaintext else none

/-- Embeds `encryptData` (vault.ts lines 47-66); the source draws `salt` and
`iv` from `crypto.getRandomValues`, here they are explicit arguments. The
salt is stored hex-encoded, as in the source. -/
def encryptData {α : Type} (data : α) (password : String) (salt iv : List Nat) :
    EncryptedVault α :=
  let key := deriveKey password salt
  { encrypted := { key := key, iv := iv, plaintext := data },
    iv := iv,
    salt := OctraWallet.bytesToHex salt }

/-- Embeds `decryptData` (vault.ts lines 69-84): decode the hex salt,
re-derive the key from the supplied password, GCM-decrypt; on success the
plaintext and the derived key are returned. -/
def decryptData {α : Type} [DecidableEq α] (vault : EncryptedVault α)
    (password : String) : Option (α × DerivedKey) :=
  let salt := OctraWallet.hexToBytes vault.salt
  let key := deriveKey password salt
  (gcmDecrypt vault.encrypted key vault.iv).map (fun d => (d, key))

/-- Embeds `decryptWithKey` (vault.ts lines 87-99): decrypt with a
pre-derived key, no derivation. -/
def decryptWithKey {α : Type} [DecidableEq α] (vault : EncryptedVault α)
    (key : DerivedKey) : Option α :=
  gcmDecrypt vault.encrypted key vault.iv

/-- An account as stored in the wallet record (shared/types
`AccountWithPrivateKey`). -/
structure AccountWithPrivateKey where
  index : Nat
  name : String
  address : String
  publicKey : String
  privateKey : String
deriving DecidableEq

/-- An account as returned to callers, without the private key. -/
structure Account where
  index : Nat
  name : String
  address : String
  publicKey : String
deriving DecidableEq

/-- The decrypted wallet record (vault.ts lines 7-10). -/
structure WalletData where
  accounts : List AccountWithPrivateKey
  nextAccountIndex : Nat
deriving DecidableEq

/-- Strip the private key, as `getAccounts` maps accounts. -/
def toPublic (a : AccountWithPrivateKey) : Account :=
  { index := a.index, name := a.name, address := a.address, publicKey := a.publicKey }

/-- The distinct failure kinds of the vault service; each constructor stands
for one `throw new Error(...)` site of vault.ts. -/
inductive VError where
  | noWalletFound
  | invalidPassword
  | walletNotLoaded
  | lastAccountUndeletable
  | accountNotFound
  | accountLimitExceeded
  | duplicateAccount
  | cannotSave
  | invalidCurrentPassword
  | passwordTooShort
  | passwordComplexity
deriving DecidableEq

/-- The whole state the `VaultService` operations read and write: the four
static in-memory fields (vault.ts lines 109-112) and the persistent slots it
uses in `chrome.storage` (the vault blob, the session marker, the last
activity timestamp and the auto-lock timeout). `kdfCalls` instruments the
number of PBKDF2 invocations — the derivation-call counter the specification
refers to — and is bumped exactly where the source calls a function that
derives a key (`encryptData`, `decryptData`). -/
structure VaultState where
  walletData : Option WalletData
  currentPassword : Option String
  cachedKey : Option DerivedKey
  cachedSalt : Option String
  storedVault : Option (EncryptedVault WalletData)
  session : Option String
  lastActivity : Option Nat
  autoLockTimeout : Option Nat
  kdfCalls : Nat
deriving DecidableEq

/-- Embeds `VaultService.exists` (vault.ts lines 117-120). -/
def existsWallet (st : VaultState) : Bool := st.storedVault.isSome

/-- The public account list of a wallet record (`getAccounts`, lines 402-413). -/
def getAccountsW (w : WalletData) : List Account := w.accounts.map toPublic

/-- Record one PBKDF2 derivation. -/
def bumpKdf (st : VaultState) : VaultState := { st with kdfCalls := st.kdfCalls + 1 }

/-- The slow branch of `unlock` entered with no usable cache (vault.ts lines
364-370, success lines 372-376, failure line 384): one derivation; on success
the derived key is cached, the record and password are stored, activity is
updated and the session marker saved; on failure `Invalid password`. -/
def unlockSlow (st : VaultState) (vault : EncryptedVault WalletData)
    (password : String) (now : Nat) : Except VError (List Account) × VaultState :=
  let st1 := bumpKdf st
  match decryptData vault password with
  | some (w, key) =>
    (.ok (getAccountsW w),
     { st1 with cachedKey := some key, cachedSalt := some vault.salt,
                walletData := some w, currentPassword := some password,
                lastActivity := some now, session := some password })
  | none => (.error .invalidPassword, st1)

/-- Embeds `VaultService.unlock` (vault.ts lines 350-386). The password is
consulted only on the slow path; when a cached key whose recorded salt equals
the blob salt decrypts, the cache branch succeeds for any password. The
`catch` branch clears a present cache and retries once (the recursion of
line 382, unrolled: the retry runs with an empty cache). -/
def unlock (st : VaultState) (password : String) (now : Nat) :
    Except VError (List Account) × VaultState :=
  match st.storedVault with
  | none => (.error .noWalletFound, st)
  | some vault =>
    match st.cachedKey with
    | some key =>
      if st.cachedSalt = some vault.salt then
        match decryptWithKey vault key with
        | some w =>
          (.ok (getAccountsW w),
           { st with walletData := some w, currentPassword := some password,
                     lastActivity := some now, session := some password })
        | none =>
          unlockSlow { st with cachedKey := none, cachedSalt := none } vault password now
      else
        let st1 := bumpKdf st
        match decryptData vault password with
        | some (w, k) =>
          (.ok (getAccountsW w),
           { st1 with cachedKey := some k, cachedSalt := some vault.salt,
                      walletData := some w, currentPassword := some password,
                      lastActivity := some now, session := some password })
        | none =>
          unlockSlow { st1 with cachedKey := none, cachedSalt := none } vault password now
    | none => unlockSlow st vault password now

/-- Embeds `VaultService.lock` (vault.ts lines 391-397): drops the record and
password and clears the session marker, deliberately keeping the cached key
and salt. -/
def lock (st : VaultState) : VaultState :=
  { st with walletData := none, currentPassword := none, session := none }

/-- Embeds `VaultService.reset` (vault.ts lines 606-609): `walletData = null`
and removal of the persisted blob — nothing else. -/
def reset (st : VaultState) : VaultState :=
  { st with walletData := none, storedVault := none }

/-- Embeds the private `save` (vault.ts lines 612-620): encrypt the current
record with the remembered password under a fresh salt and iv and persist it. -/
def save (st : VaultState) (salt iv : List Nat) : Except VError Unit × VaultState :=
  match st.walletData, st.currentPassword with
  | some w, some p =>
    let st1 := bumpKdf st
    (.ok (), { st1 with storedVault := some (encryptData w p salt iv) })
  | _, _ => (.error .cannotSave, st)

/-- The key material `OctraKeyring.generate` returns (already encoded); the
source draws it at random, here it is an explicit argument. -/
structure GenKey where
  privateKey : String
  publicKey : String
  address : String
deriving DecidableEq

/-- Embeds `VaultService.addAccount` (vault.ts lines 418-448); `name?` is the
optional name argument, whose JavaScript `||` default also replaces an empty
string. -/
def addAccount (st : VaultState) (nameArg : Option String) (gen : GenKey)
    (salt iv : List Nat) : Except VError Account × VaultState :=
  match st.walletData with
  | none => (.error .walletNotLoaded, st)
  | some w =>
    if w.accounts.length ≥ 100 then (.error .accountLimitExceeded, st)
    else
      let defaultName := "Account " ++ toString (w.nextAccountIndex + 1)
      let nm := match nameArg with
        | some n => if n = "" then defaultName else n
        | none => defaultName
      let account : AccountWithPrivateKey :=
        { index := w.nextAccountIndex, name := nm, address := gen.address,
          publicKey := gen.publicKey, privateKey := gen.privateKey }
      let w' : WalletData :=
        { accounts := w.accounts ++ [account],
          nextAccountIndex := w.nextAccountIndex + 1 }
      let st1 := { st with walletData := some w' }
      match save st1 salt iv with
      | (.ok _, st2) => (.ok (toPublic account), st2)
      | (.error e, st2) => (.error e, st2)

/-- Embeds `VaultService.removeAccount` (vault.ts lines 533-549): refuse to
remove the last account, look the index up with `findIndex`, splice exactly
the found element out (`List.eraseP` removes the first match, as
`findIndex` + `splice(k, 1)` does), keep `nextAccountIndex`, and save. -/
def removeAccount (st : VaultState) (index : Nat) (salt iv : List Nat) :
    Except VError Unit × VaultState :=
  match st.walletData with
  | none => (.error .walletNotLoaded, st)
  | some w =>
    if w.accounts.length ≤ 1 then (.error .lastAccountUndeletable, st)
    else if (w.accounts.findIdx? (fun a => a.index == index)).isNone then
      (.error .accountNotFound, st)
    else
      let w' : WalletData :=
        { accounts := w.accounts.eraseP (fun a => a.index == index),
          nextAccountIndex := w.nextAccountIndex }
      let st1 := { st with walletData := some w' }
      match save st1 salt iv with
      | (.ok _, st2) => (.ok (), st2)
      | (.error e, st2) => (.error e, st2)

/-- Embeds `VaultService.verifyPassword` (vault.ts lines 625-638): attempt a
full decryption; one derivation when a blob exists. -/
def verifyPassword (st : VaultState) (password : String) : Bool × VaultState :=
  match st.storedVault with
  | none => (false, st)
  | some vault =>
    let st1 := bumpKdf st
    ((decryptData vault password).isSome, st1)

/-- Embeds the private `validatePassword` (vault.ts lines 222-234): at least
8 characters and at least one ASCII uppercase letter, lowercase letter and
digit (the `[A-Z]`, `[a-z]`, `[0-9]` classes. -/
def validatePassword (password : String) : Option VError :=
  if password.length < 8 then some .passwordTooShort
  else
    let hasUpper := password.data.any (fun c => decide ('A' ≤ c) && decide (c ≤ 'Z'))
    let hasLower := password.data.any (fun c => decide ('a' ≤ c) && decide (c ≤ 'z'))
    let hasNumber := password.data.any (fun c => decide ('0' ≤ c) && decide (c ≤ '9'))
    if hasUpper && hasLower && hasNumber then none else some .passwordComplexity

/-- Embeds `VaultService.changePassword` (vault.ts lines 643-667): verify the
old password (one derivation), validate the new one, decrypt with the old
password (a second derivation), re-encrypt under the new password with a
fresh salt and iv (a third derivation) and persist; when currently unlocked,
remember the new password and drop the cached key and salt. The two
`.error` branches after verification cannot be reached (verification already
decrypted the same blob) and stand for the undocumented exceptions the
source would propagate there. -/
def changePassword (st : VaultState) (oldPassword newPassword : String)
    (salt iv : List Nat) : Except VError Unit × VaultState :=
  match verifyPassword st oldPassword with
  | (false, st1) => (.error .invalidCurrentPassword, st1)
  | (true, st1) =>
    match validatePassword newPassword with
    | some e => (.error e, st1)
    | none =>
      match st1.storedVault with
      | none => (.error .invalidCurrentPassword, st1)
      | some vault =>
        let st2 := bumpKdf st1
        match decryptData vault oldPassword with
        | none => (.error .invalidPassword, st2)
        | some (data, _) =>
          let st3 := bumpKdf st2
          let st4 := { st3 with
            storedVault := some (encryptData data newPassword salt iv) }
          if st4.walletData.isSome && st4.currentPassword.isSome then
            (.ok (), { st4 with currentPassword := some newPassword,
                                cachedKey := none, cachedSalt := none })
          else (.ok (), st4)

/-- Embeds `VaultService.updateActivity` (vault.ts lines 674-676). -/
def updateActivity (st : VaultState) (now : Nat) : VaultState :=
  { st with lastActivity := some now }

/-- Embeds `VaultService.getAutoLockTimeout` (vault.ts lines 681-685): the
stored value, defaulting to `WALLET_CONFIG.DEFAULT_AUTO_LOCK_TIMEOUT = 15`
minutes. -/
def getAutoLockTimeout (st : VaultState) : Nat := st.autoLockTimeout.getD 15

/-- Embeds `VaultService.shouldAutoLock` (vault.ts lines 697-710). The
source tests `!lastActivity`, which is also true of a recorded timestamp 0;
real recorded timestamps come from `Date.now()` and are positive. The
elapsed-time comparison is over the integers, as JavaScript subtraction is. -/
def shouldAutoLock (st : VaultState) (now : Nat) : Bool :=
  let timeout := getAutoLockTimeout st
  if timeout = 0 then false
  else
    match st.lastActivity with
    | none => false
    | some la =>
      if la = 0 then false
      else decide ((now : Int) - (la : Int) > (timeout : Int) * 60 * 1000)

/-- The wallet-record index invariant: every account index is below the
wallet-level counter. It holds of every record the service creates (`create`
and the import paths build one account of index 0 with counter 1) and, as
proved below, is preserved by the account operations. -/
def IndexInv (w : WalletData) : Prop :=
  ∀ a ∈ w.accounts, a.index < w.nextAccountIndex

instance : DecidablePred IndexInv := fun w =>
  inferInstanceAs (Decidable (∀ a ∈ w.accounts, a.index < w.nextAccountIndex))

end Vault

instance {ε α : Type} [DecidableEq ε] [DecidableEq α] : DecidableEq (Except ε α) :=
  fun x y =>
  match x, y with
  | .ok a, .ok b => decidable_of_iff (a = b) (by simp)
  | .error a, .error b => decidable_of_iff (a = b) (by simp)
  | .ok _, .error _ => isFalse (fun h => Except.noConfusion h)
  | .error _, .ok _ => isFalse (fun h => Except.noConfusion h)

/-! ## Concrete fixtures

Small concrete records and states used by the witnesses below. -/

/-- A concrete stored account. -/
def sampleAccount : Vault.AccountWithPrivateKey :=
  { index := 0, name := "Account 1", address := "oct1", publicKey := "pk1",
    privateKey := "sk1" }

/-- A second concrete stored account, of index 1. -/
def sampleAccount2 : Vault.AccountWithPrivateKey :=
  { index := 1, name := "Account 2", address := "oct2", publicKey := "pk2",
    privateKey := "sk2" }

/-- A one-account wallet record. -/
def sampleWallet : Vault.WalletData :=
  { accounts := [sampleAccount], nextAccountIndex := 1 }

/-- A two-account wallet record. -/
def sampleWallet2 : Vault.WalletData :=
  { accounts := [sampleAccount, sampleAccount2], nextAccountIndex := 2 }

/-- A state whose blob encrypts `w` under `p` (salt `[3]`, iv `[4]`) and whose
session cache already holds the matching derived key; locked. -/
def warmCacheState (w : Vault.WalletData) (p : String) : Vault.VaultState :=
  { walletData := none, currentPassword := none,
    cachedKey := some (Vault.deriveKey p [3]),
    cachedSalt := some (bytesToHex [3]),
    storedVault := some (Vault.encryptData w p [3] [4]),
    session := none, lastActivity := none, autoLockTimeout := none,
    kdfCalls := 0 }

/-- A locked state holding only the encrypted blob of `w` under `p`. -/
def lockedBlobState (w : Vault.WalletData) (p : String) : Vault.VaultState :=
  { walletData := none, currentPassword := none, cachedKey := none,
    cachedSalt := none,
    storedVault := some (Vault.encryptData w p [3] [4]),
    session := none, lastActivity := none, autoLockTimeout := none,
    kdfCalls := 0 }

/-- An unlocked state: record and password in memory, blob persisted. -/
def unlockedState (w : Vault.WalletData) (p : String) : Vault.VaultState :=
  { walletData := some w, currentPassword := some p, cachedKey := none,
    cachedSalt := none,
    storedVault := some (Vault.encryptData w p [3] [4]),
    session := some p, lastActivity := some 0, autoLockTimeout := none,
    kdfCalls := 0 }

/-! ## Helper lemmas -/

theorem byteToHex_length_two : ∀ b < 256, (byteToHex b).data.length = 2 := by decide

theorem hexPairs_byteToHex : ∀ b < 256, hexPairs (byteToHex b).data = [b] := by decide

theorem hexPairs_byteToHex_append (b : Nat) (hb : b < 256) (cs : List Char) :
    hexPairs ((byteToHex b).data ++ cs) = b :: hexPairs cs := by
  obtain ⟨c1, c2, hc⟩ := List.length_eq_two.mp (byteToHex_length_two b hb)
  have hv := hexPairs_byteToHex b hb
  rw [hc] at hv ⊢
  simpa [hexPairs] using hv

/-- The hex decoding of vault.ts line 70 inverts the hex encoding of line 64
on byte lists. -/
theorem hexToBytes_bytesToHex (l : List Nat) (hl : IsBytes l) :
    hexToBytes (bytesToHex l) = l := by
  induction l with
  | nil => rfl
  | cons b t ih =>
    have hb : b < 256 := hl b (List.mem_cons_self b t)
    have ht : IsBytes t := fun x hx => hl x (List.mem_cons_of_mem b hx)
    have hdata : (byteToHex b ++ bytesToHex t).data
        = (byteToHex b).data ++ (bytesToHex t).data := by
      simp [String.data_append]
    simp only [hexToBytes, bytesToHex, hdata, hexPairs_byteToHex_append b hb]
    simpa [hexToBytes] using ih ht

namespace Vault

/-- Decrypting under any password other than the encryption password fails:
the re-derived key differs from the key of the blob, so the ideal
authenticated cipher rejects. -/
theorem decryptData_wrong_password {α : Type} [DecidableEq α] (data : α)
    (P P' : String) (salt iv : List Nat) (hne : P ≠ P') :
    decryptData (encryptData data P salt iv) P' = none := by
  have hkey : deriveKey P salt
      ≠ deriveKey P' (OctraWallet.hexToBytes (OctraWallet.bytesToHex salt)) := by
    intro h
    exact hne (congrArg DerivedKey.password h)
  simp [decryptData, encryptData, gcmDecrypt, fun h => hkey h]

/-- Decryption with the original password recovers the plaintext and the
derived key, provided the salt is a byte list (so its hex round-trips). -/
theorem decryptData_encryptData {α : Type} [DecidableEq α] (data : α)
    (P : String) (salt iv : List Nat) (hs : IsBytes salt) :
    decryptData (encryptData data P salt iv) P = some (data, deriveKey P salt) := by
  simp [decryptData, encryptData, gcmDecrypt, hexToBytes_bytesToHex salt hs]

end Vault

namespace Vault

/-- Any `unlock` that cannot take the cache-hit branch (no cached key, or a
cached salt differing from the blob salt) performs at least one slow key
derivation. -/
theorem unlock_bumps_kdf (st : VaultState) (vault : EncryptedVault WalletData)
    (password : String) (now : Nat)
    (hv : st.storedVault = some vault)
    (hmiss : st.cachedKey = none ∨ st.cachedSalt ≠ some vault.salt) :
    ((unlock st password now).2).kdfCalls > st.kdfCalls := by
  rcases hk : st.cachedKey with _ | k
  · rcases hd : decryptData vault password with _ | p
    · simp [unlock, hv, hk, unlockSlow, hd, bumpKdf]
    · simp [unlock, hv, hk, unlockSlow, hd, bumpKdf]
  · have hs : ¬st.cachedSalt = some vault.salt := by
      rcases hmiss with h | h
      · rw [hk] at h; exact Option.noConfusion h
      · exact h
    rcases hd : decryptData vault password with _ | p
    · simp only [unlock, hv, hk, hs, unlockSlow, hd, bumpKdf, if_false]
      omega
    · simp [unlock, hv, hk, hs, unlockSlow, hd, bumpKdf]

/-- Any `unlock` that cannot take the cache-hit branch and whose password
decrypts the blob succeeds with exactly one slow key derivation. -/
theorem unlock_slow_success (st : VaultState) (vault : EncryptedVault WalletData)
    (w : WalletData) (key : DerivedKey) (password : String) (now : Nat)
    (hv : st.storedVault = some vault)
    (hmiss : st.cachedKey = none ∨ st.cachedSalt ≠ some vault.salt)
    (hd : decryptData vault password = some (w, key)) :
    (unlock st password now).1 = .ok (getAccountsW w) ∧
    ((unlock st password now).2).kdfCalls = st.kdfCalls + 1 := by
  rcases hk : st.cachedKey with _ | k
  · constructor <;> simp [unlock, hv, hk, unlockSlow, hd, bumpKdf]
  · have hs : ¬st.cachedSalt = some vault.salt := by
      rcases hmiss with h | h
      · rw [hk] at h; exact Option.noConfusion h
      · exact h
    constructor <;> simp [unlock, hv, hk, hs, unlockSlow, hd, bumpKdf]

/-- Shape of a successful `changePassword`: the blob is re-encrypted under
the new password with the fresh salt and iv, three derivations happen, and
the cache is either cleared (the unlocked case) or untouched (the locked
case). -/
theorem changePassword_ok_cases (st st' : VaultState) (oldP newP : String)
    (salt iv : List Nat)
    (h : changePassword st oldP newP salt iv = (.ok (), st')) :
    ∃ data : WalletData,
      st'.storedVault = some (encryptData data newP salt iv) ∧
      st'.kdfCalls = st.kdfCalls + 3 ∧
      ((st'.cachedKey = none ∧ st'.cachedSalt = none) ∨
       (st'.cachedKey = st.cachedKey ∧ st'.cachedSalt = st.cachedSalt)) := by
  rcases hsv : st.storedVault with _ | vault₀
  · simp [changePassword, verifyPassword, hsv] at h
  · rcases hdd : decryptData vault₀ oldP with _ | ⟨data, key₀⟩
    · simp [changePassword, verifyPassword, hsv, hdd] at h
    · rcases hval : validatePassword newP with _ | e
      · rcases hb : st.walletData.isSome && st.currentPassword.isSome with _ | _
        · refine ⟨data, ?_⟩
          simp only [changePassword, verifyPassword, hsv, hdd, hval, Option.isSome_some,
            bumpKdf, hb, Bool.false_eq_true, if_false, Prod.mk.injEq, true_and] at h
          subst h
          refine ⟨rfl, by simp, Or.inr ⟨rfl, rfl⟩⟩
        · refine ⟨data, ?_⟩
          simp only [changePassword, verifyPassword, hsv, hdd, hval, Option.isSome_some,
            bumpKdf, hb, if_true, Prod.mk.injEq, true_and] at h
          subst h
          refine ⟨rfl, by simp, Or.inl ⟨rfl, rfl⟩⟩
      · simp [changePassword, verifyPassword, hsv, hdd, hval] at h

/-- Shape of a successful `addAccount`: the new account gets the current
counter value as its index, is appended, and the counter is incremented. -/
theorem addAccount_ok_spec (st st' : VaultState) (nameArg : Option String)
    (gen : GenKey) (salt iv : List Nat) (acc : Account) (w : WalletData)
    (hw : st.walletData = some w)
    (h : addAccount st nameArg gen salt iv = (.ok acc, st')) :
    acc.index = w.nextAccountIndex ∧
    ∃ a : AccountWithPrivateKey, a.index = w.nextAccountIndex ∧
      st'.walletData = some { accounts := w.accounts ++ [a],
                              nextAccountIndex := w.nextAccountIndex + 1 } := by
  by_cases hlen : w.accounts.length ≥ 100
  · simp [addAccount, hw, hlen] at h
  · rcases hcp : st.currentPassword with _ | p
    · simp [addAccount, hw, hlen, save, hcp] at h
    · simp only [addAccount, hw, hlen, save, hcp, bumpKdf, if_false, Prod.mk.injEq,
        Except.ok.injEq] at h
      rcases h with ⟨h1, h2⟩
      subst h1
      subst h2
      refine ⟨rfl, _, rfl, rfl⟩

/-- Shape of a successful `removeAccount`: the found account is spliced out
and the counter is untouched. -/
theorem removeAccount_ok_spec (st st' : VaultState) (i : Nat) (salt iv : List Nat)
    (w : WalletData)
    (hw : st.walletData = some w)
    (h : removeAccount st i salt iv = (.ok (), st')) :
    st'.walletData = some { accounts := w.accounts.eraseP (fun a => a.index == i),
                            nextAccountIndex := w.nextAccountIndex } := by
  by_cases hlen : w.accounts.length ≤ 1
  · simp [removeAccount, hw, hlen] at h
  · by_cases hfind : (w.accounts.findIdx? (fun a => a.index == i)).isNone
    · simp [removeAccount, hw, hlen, hfind] at h
    · rcases hcp : st.currentPassword with _ | p
      · simp [removeAccount, hw, hlen, hfind, save, hcp] at h
      · simp only [removeAccount, hw, hlen, hfind, save, hcp, bumpKdf, if_false,
          Bool.false_eq_true, Prod.mk.injEq, true_and] at h
        subst h
        rfl

end Vault

/-! ## Claim C1 -/

/-- Claim C1: for every transaction, the byte string that `sign()` feeds to
the Ed25519 signing primitive is exactly the UTF-8 encoding of the literal
JSON text with members from, to_, amount, nonce, ou, timestamp in that order
and quoting (from, to_, amount, ou quoted; nonce and timestamp unquoted),
independent of any object-key serialization order. -/
theorem signing_message_is_exact_literal (tx : OctraTransaction)
    (edSign : List Nat → String → List Nat) (priv pub : String) :
    signMessage tx = specSigningPayload tx ∧
    (TransactionBuilder.sign edSign tx priv pub).signature
      = edSign (utf8Bytes (specSigningPayload tx)) priv := by
  have h : signMessage tx = specSigningPayload tx := by
    apply String.ext
    simp [signMessage, specSigningPayload, jsonField, jsonQuoted, String.intercalate,
      String.intercalate.go, String.data_append]
  exact ⟨h, by rw [TransactionBuilder.sign, h]⟩

/-! ## Claim C2 -/

/-- Claim C2: for every password and every wallet record serialized as a
string, decrypting the vault encryption of the record with the same password
recovers the record exactly (the salt drawn by `encryptData` is a byte
list). -/
theorem vault_encrypt_decrypt_roundtrip (W P : String) (salt iv : List Nat)
    (hs : IsBytes salt) :
    (Vault.decryptData (Vault.encryptData W P salt iv) P).map Prod.fst = some W := by
  rw [Vault.decryptData_encryptData W P salt iv hs]
  rfl

/-- Witness for C2 at a concrete record, password, salt and iv. -/
theorem vault_encrypt_decrypt_roundtrip_witness :
    (Vault.decryptData
        (Vault.encryptData "walletRecord" "Password1" [7, 255] [12]) "Password1").map
      Prod.fst = some "walletRecord" :=
  vault_encrypt_decrypt_roundtrip "walletRecord" "Password1" [7, 255] [12] (by decide)

/-! ## Claim C3 -/

/-- Claim C3: decrypting with any password other than the encryption
password never returns a plaintext, and at the service level the failure
surfaces as the single invalid-password error kind, the same one a corrupted
ciphertext produces — the caller cannot tell the two apart. -/
theorem wrong_password_single_error (P P' : String) (hne : P ≠ P') :
    (∀ (W : String) (salt iv : List Nat),
      Vault.decryptData (Vault.encryptData W P salt iv) P' = none) ∧
    (∀ (Wd : Vault.WalletData) (salt iv : List Nat) (st : Vault.VaultState) (now : Nat),
      st.storedVault = some (Vault.encryptData Wd P salt iv) →
      st.cachedKey = none →
      (Vault.unlock st P' now).1 = .error .invalidPassword) := by
  constructor
  · intro W salt iv
    exact Vault.decryptData_wrong_password W P P' salt iv hne
  · intro Wd salt iv st now hv hk
    simp [Vault.unlock, hv, hk, Vault.unlockSlow,
      Vault.decryptData_wrong_password Wd P P' salt iv hne]

/-- Witness for C3 at two concrete distinct passwords. -/
theorem wrong_password_single_error_witness :
    Vault.decryptData
      (Vault.encryptData "walletRecord" "Password1" [3] [4]) "Password2" = none :=
  (wrong_password_single_error "Password1" "Password2" (by decide)).1 "walletRecord" [3] [4]

/-! ## Claim C4 -/

/-- Claim C4: whenever the session cache holds a key whose recorded salt
equals the persisted blob salt (and the key authenticates against the blob),
`unlock(p)` succeeds for every password string p with a result that does not
depend on p, stores p as the remembered current password, and a subsequent
`save()` re-encrypts the vault under p. -/
theorem cached_key_unlock_ignores_password (st : Vault.VaultState)
    (vault : Vault.EncryptedVault Vault.WalletData) (k : Vault.DerivedKey)
    (w : Vault.WalletData) (now : Nat)
    (hv : st.storedVault = some vault)
    (hk : st.cachedKey = some k)
    (hs : st.cachedSalt = some vault.salt)
    (hd : Vault.decryptWithKey vault k = some w) :
    ∀ password : String,
      Vault.unlock st password now
        = (.ok (Vault.getAccountsW w),
           { st with walletData := some w, currentPassword := some password,
                     lastActivity := some now, session := some password }) ∧
      ∀ salt iv : List Nat,
        ((Vault.save (Vault.unlock st password now).2 salt iv).2).storedVault
          = some (Vault.encryptData w password salt iv) := by
  intro password
  have hu : Vault.unlock st password now
      = (.ok (Vault.getAccountsW w),
         { st with walletData := some w, currentPassword := some password,
                   lastActivity := some now, session := some password }) := by
    simp [Vault.unlock, hv, hk, hs, hd]
  refine ⟨hu, fun salt iv => ?_⟩
  rw [hu]
  simp [Vault.save]

/-- Witness for C4: a concrete warm-cache state unlocked with a password
that is not the vault password. -/
theorem cached_key_unlock_ignores_password_witness :
    (Vault.unlock (warmCacheState sampleWallet "Password1") "TotallyWrong9" 77).1
      = .ok (Vault.getAccountsW sampleWallet) := by
  have h := cached_key_unlock_ignores_password
    (warmCacheState sampleWallet "Password1")
    (Vault.encryptData sampleWallet "Password1" [3] [4])
    (Vault.deriveKey "Password1" [3]) sampleWallet
    77 rfl rfl rfl (by decide) "TotallyWrong9"
  rw [h.1]

/-! ## Claim C5 -/

/-- Counterexample to claim C5: the all-zero 64-byte input is accepted by the
raw-secret import path, its last 32 bytes become the public key unchecked,
yet the Ed25519 public key derivable from its first 32 bytes is a different
byte string — the claimed invariant fails at this input. -/
theorem secret64_invariant_counterexample :
    OctraKeyring.fromSecretKeyBytes (List.replicate 64 0)
      = .ok { privateKey := List.replicate 64 0, publicKey := List.replicate 32 0 } ∧
    Ed25519.pubFromSeed ((List.replicate 64 0).take 32)
      ≠ (List.replicate 64 0).drop 32 := by
  constructor
  · decide
  · decide

/-- Amended claim C5: a 64-byte input is accepted with no consistency check —
the full secret is the input itself and the public key is its last 32 bytes,
whether or not those equal the public key derivable from the first 32 bytes;
a 32-byte input is expanded as a seed (there the invariant holds by
construction); any other length is rejected with the invalid-key-length
error. -/
theorem secret64_actual_behavior (b : List Nat) :
    (b.length = 64 →
      OctraKeyring.fromSecretKeyBytes b
        = .ok { privateKey := b, publicKey := b.drop 32 }) ∧
    (b.length = 32 →
      OctraKeyring.fromSecretKeyBytes b
        = .ok { privateKey := b ++ Ed25519.pubFromSeed b,
                publicKey := Ed25519.pubFromSeed b }) ∧
    (b.length ≠ 32 → b.length ≠ 64 →
      OctraKeyring.fromSecretKeyBytes b = .error (.invalidKeyLength b.length)) := by
  refine ⟨fun h => ?_, fun h => ?_, fun h32 h64 => ?_⟩
  · simp [OctraKeyring.fromSecretKeyBytes, h]
  · simp [OctraKeyring.fromSecretKeyBytes, OctraKeyring.naclKeyPairFromSeed, h]
  · simp [OctraKeyring.fromSecretKeyBytes, h32, h64]

/-- Witness for the amended C5 at a concrete 64-byte input and a concrete
3-byte input. -/
theorem secret64_actual_behavior_witness :
    OctraKeyring.fromSecretKeyBytes (List.replicate 64 1)
      = .ok { privateKey := List.replicate 64 1,
              publicKey := (List.replicate 64 1).drop 32 } ∧
    OctraKeyring.fromSecretKeyBytes [0, 1, 2]
      = .error (.invalidKeyLength ([0, 1, 2] : List Nat).length) :=
  ⟨(secret64_actual_behavior (List.replicate 64 1)).1 (by decide),
   (secret64_actual_behavior [0, 1, 2]).2.2 (by decide) (by decide)⟩

/-! ## Claim C7 -/

/-- Claim C7: after `lock()` a subsequent `unlock` whose cached key matches
the blob decrypts through the cache with no slow key derivation (the
derivation counter is unchanged); after a successful `changePassword` whose
fresh salt differs from any cached salt (the source draws 32 fresh random
bytes), the very next `unlock` always performs the slow derivation path, and
unlocking with the new password succeeds with exactly one derivation. -/
theorem cache_fast_path_and_invalidation :
    (∀ (st : Vault.VaultState) (vault : Vault.EncryptedVault Vault.WalletData)
       (k : Vault.DerivedKey) (w : Vault.WalletData) (password : String) (now : Nat),
      st.storedVault = some vault →
      st.cachedKey = some k →
      st.cachedSalt = some vault.salt →
      Vault.decryptWithKey vault k = some w →
      (Vault.unlock (Vault.lock st) password now).1 = .ok (Vault.getAccountsW w) ∧
      ((Vault.unlock (Vault.lock st) password now).2).kdfCalls = st.kdfCalls) ∧
    (∀ (st st' : Vault.VaultState) (oldP newP : String) (salt iv : List Nat),
      Vault.changePassword st oldP newP salt iv = (.ok (), st') →
      st.cachedSalt ≠ some (bytesToHex salt) →
      IsBytes salt →
      (∀ (password : String) (now : Nat),
        ((Vault.unlock st' password now).2).kdfCalls > st'.kdfCalls) ∧
      (∀ now : Nat, ∃ accs,
        (Vault.unlock st' newP now).1 = .ok accs ∧
        ((Vault.unlock st' newP now).2).kdfCalls = st'.kdfCalls + 1)) := by
  constructor
  · intro st vault k w password now hv hk hs hd
    constructor <;> simp [Vault.unlock, Vault.lock, hv, hk, hs, hd]
  · intro st st' oldP newP salt iv h hfresh hsalt
    obtain ⟨data, hv', hkdf', hcache⟩ :=
      Vault.changePassword_ok_cases st st' oldP newP salt iv h
    have hvsalt : (Vault.encryptData data newP salt iv).salt = bytesToHex salt := rfl
    have hmiss : st'.cachedKey = none ∨
        st'.cachedSalt ≠ some (Vault.encryptData data newP salt iv).salt := by
      rcases hcache with ⟨hck, hcs⟩ | ⟨hck, hcs⟩
      · exact Or.inl hck
      · refine Or.inr ?_
        rw [hcs, hvsalt]
        exact hfresh
    refine ⟨fun password now => Vault.unlock_bumps_kdf st' _ password now hv' hmiss,
      fun now => ?_⟩
    have hdec : Vault.decryptData (Vault.encryptData data newP salt iv) newP
        = some (data, Vault.deriveKey newP salt) :=
      Vault.decryptData_encryptData data newP salt iv hsalt
    obtain ⟨h1, h2⟩ := Vault.unlock_slow_success st' _ data _ newP now hv' hmiss hdec
    exact ⟨Vault.getAccountsW data, h1, h2⟩

/-- Witness for C7: the fast path at a concrete warm-cache state, and the
forced slow path after a concrete `changePassword` on a locked vault. -/
theorem cache_fast_path_and_invalidation_witness :
    ((Vault.unlock (Vault.lock (warmCacheState sampleWallet "Password1"))
        "Password1" 9).2).kdfCalls = 0 ∧
    ((Vault.unlock
        (Vault.changePassword (lockedBlobState sampleWallet "Oldpass1")
          "Oldpass1" "Newpass1" [6] [7]).2
        "WrongGuess9" 0).2).kdfCalls
      > ((Vault.changePassword (lockedBlobState sampleWallet "Oldpass1")
          "Oldpass1" "Newpass1" [6] [7]).2).kdfCalls := by
  obtain ⟨fast, slow⟩ := cache_fast_path_and_invalidation
  constructor
  · exact (fast (warmCacheState sampleWallet "Password1")
      (Vault.encryptData sampleWallet "Password1" [3] [4])
      (Vault.deriveKey "Password1" [3]) sampleWallet "Password1" 9
      rfl rfl rfl (by decide)).2
  · have hcp : Vault.changePassword (lockedBlobState sampleWallet "Oldpass1")
        "Oldpass1" "Newpass1" [6] [7]
        = (.ok (), (Vault.changePassword (lockedBlobState sampleWallet "Oldpass1")
            "Oldpass1" "Newpass1" [6] [7]).2) := by
      have h1 : (Vault.changePassword (lockedBlobState sampleWallet "Oldpass1")
          "Oldpass1" "Newpass1" [6] [7]).1 = .ok () := by decide
      exact Prod.ext h1 rfl
    exact (slow (lockedBlobState sampleWallet "Oldpass1") _
      "Oldpass1" "Newpass1" [6] [7] hcp (by decide) (by decide)).1 "WrongGuess9" 0

/-! ## Claim C6 -/

/-- Counterexample to claim C6: after `reset()` from a concrete unlocked
state, the remembered current password is still present (and so is the
session marker) — the in-memory state is not all cleared. -/
theorem reset_leaves_secrets_counterexample :
    (Vault.reset (unlockedState sampleWallet "Secret123")).currentPassword
      = some "Secret123" ∧
    (Vault.reset (unlockedState sampleWallet "Secret123")).session
      = some "Secret123" ∧
    (Vault.reset (warmCacheState sampleWallet "Secret123")).cachedKey
      = some (Vault.deriveKey "Secret123" [3]) ∧
    (Vault.reset (warmCacheState sampleWallet "Secret123")).cachedSalt
      = some (bytesToHex [3]) := by
  refine ⟨rfl, rfl, rfl, rfl⟩

/-- Amended claim C6: `reset()` clears the decrypted WalletRecord and deletes
the persisted encrypted blob, so `exists()` returns false — but it leaves
the remembered current password, the cached derived key and its salt, and
the session marker untouched. -/
theorem reset_clears_record_and_blob_only (st : Vault.VaultState) :
    (Vault.reset st).walletData = none ∧
    (Vault.reset st).storedVault = none ∧
    Vault.existsWallet (Vault.reset st) = false ∧
    (Vault.reset st).currentPassword = st.currentPassword ∧
    (Vault.reset st).cachedKey = st.cachedKey ∧
    (Vault.reset st).cachedSalt = st.cachedSalt ∧
    (Vault.reset st).session = st.session := by
  refine ⟨rfl, rfl, rfl, rfl, rfl, rfl, rfl⟩

/-! ## Claim C8 -/

/-- Claim C8: account indices are assigned from the wallet-level
`nextAccountIndex` counter, which `addAccount` increments and
`removeAccount` leaves untouched; `removeAccount` never renumbers the
remaining accounts (they form a sublist of the old list); and under the
index invariant, removing an account and then adding one assigns the current
counter value, which no account of the original wallet ever carried. -/
theorem account_index_never_reused :
    (∀ (st st' : Vault.VaultState) (nameArg : Option String) (gen : Vault.GenKey)
       (salt iv : List Nat) (acc : Vault.Account) (w : Vault.WalletData),
      st.walletData = some w →
      Vault.addAccount st nameArg gen salt iv = (.ok acc, st') →
      acc.index = w.nextAccountIndex ∧
      ∃ w', st'.walletData = some w' ∧
        w'.nextAccountIndex = w.nextAccountIndex + 1) ∧
    (∀ (st st' : Vault.VaultState) (i : Nat) (salt iv : List Nat)
       (w : Vault.WalletData),
      st.walletData = some w →
      Vault.removeAccount st i salt iv = (.ok (), st') →
      ∃ w', st'.walletData = some w' ∧
        w'.nextAccountIndex = w.nextAccountIndex ∧
        w'.accounts.Sublist w.accounts) ∧
    (∀ (w : Vault.WalletData), Vault.IndexInv w →
      ∀ (st st' st'' : Vault.VaultState) (i : Nat) (salt iv salt2 iv2 : List Nat)
        (nameArg : Option String) (gen : Vault.GenKey) (acc : Vault.Account),
      st.walletData = some w →
      Vault.removeAccount st i salt iv = (.ok (), st') →
      Vault.addAccount st' nameArg gen salt2 iv2 = (.ok acc, st'') →
      acc.index = w.nextAccountIndex ∧ ∀ a ∈ w.accounts, a.index ≠ acc.index) ∧
    (∀ (st st' : Vault.VaultState) (w w' : Vault.WalletData), Vault.IndexInv w →
      st.walletData = some w → st'.walletData = some w' →
      ((∃ nameArg gen salt iv acc,
          Vault.addAccount st nameArg gen salt iv = (.ok acc, st')) ∨
       (∃ i salt iv, Vault.removeAccount st i salt iv = (.ok (), st'))) →
      Vault.IndexInv w') := by
  have hadd := Vault.addAccount_ok_spec
  have hrem := Vault.removeAccount_ok_spec
  refine ⟨?_, ?_, ?_, ?_⟩
  · intro st st' nameArg gen salt iv acc w hw h
    obtain ⟨hidx, a, hai, hw'⟩ := hadd st st' nameArg gen salt iv acc w hw h
    exact ⟨hidx, _, hw', rfl⟩
  · intro st st' i salt iv w hw h
    have hw' := hrem st st' i salt iv w hw h
    exact ⟨_, hw', rfl, List.eraseP_sublist _⟩
  · intro w hinv st st' st'' i salt iv salt2 iv2 nameArg gen acc hw h1 h2
    have hw' := hrem st st' i salt iv w hw h1
    obtain ⟨hidx, a, hai, hw''⟩ := hadd st' st'' nameArg gen salt2 iv2 acc _ hw' h2
    have hidx' : acc.index = w.nextAccountIndex := hidx
    refine ⟨hidx', fun x hx => ?_⟩
    have hxlt := hinv x hx
    omega
  · intro st st' w w' hinv hw hw' hstep
    rcases hstep with ⟨nameArg, gen, salt, iv, acc, h⟩ | ⟨i, salt, iv, h⟩
    · obtain ⟨hidx, a, hai, hw''⟩ := hadd st st' nameArg gen salt iv acc w hw h
      rw [hw'] at hw''
      obtain rfl := Option.some.inj hw''
      intro x hx
      show x.index < w.nextAccountIndex + 1
      rcases List.mem_append.mp hx with hxl | hxr
      · have hxlt := hinv x hxl
        omega
      · rcases List.mem_singleton.mp hxr with rfl
        omega
    · have hw'' := hrem st st' i salt iv w hw h
      rw [hw'] at hw''
      obtain rfl := Option.some.inj hw''
      intro x hx
      show x.index < w.nextAccountIndex
      exact hinv x (List.Sublist.mem hx (List.eraseP_sublist _))

/-- Witness for C8: remove account 1 from a concrete two-account unlocked
wallet, then add an account; the new index is the old counter value 2 and
differs from both old indices. -/
theorem account_index_never_reused_witness :
    (Vault.addAccount
        (Vault.removeAccount (unlockedState sampleWallet2 "Password1") 1 [5] [6]).2
        none { privateKey := "sk3", publicKey := "pk3", address := "oct3" }
        [7] [8]).1
      = .ok { index := 2, name := "Account 3", address := "oct3",
              publicKey := "pk3" } ∧
    (2 : Nat) = sampleWallet2.nextAccountIndex ∧
    ∀ a ∈ sampleWallet2.accounts, a.index ≠ 2 := by
  have h := account_index_never_reused.2.2.1 sampleWallet2 (by decide)
    (unlockedState sampleWallet2 "Password1")
    (Vault.removeAccount (unlockedState sampleWallet2 "Password1") 1 [5] [6]).2
    (Vault.addAccount
      (Vault.removeAccount (unlockedState sampleWallet2 "Password1") 1 [5] [6]).2
      none { privateKey := "sk3", publicKey := "pk3", address := "oct3" } [7] [8]).2
    1 [5] [6] [7] [8] none
    { privateKey := "sk3", publicKey := "pk3", address := "oct3" }
    { index := 2, name := "Account 3", address := "oct3", publicKey := "pk3" }
    rfl (by decide) (by decide)
  exact ⟨by decide, h.1.symm ▸ rfl, fun a ha => by
    have := h.2 a ha
    simpa using this⟩

/-! ## Claim C9 -/

/-- Claim C9: on a one-account wallet `removeAccount(i)` fails with the
last-account-undeletable error for every index i; with more than one account
and no account of index i it fails with account-not-found; in both cases the
state — in particular the wallet record — is returned unchanged. -/
theorem removeAccount_error_cases (st : Vault.VaultState) (w : Vault.WalletData)
    (hw : st.walletData = some w) :
    (w.accounts.length = 1 →
      ∀ (i : Nat) (salt iv : List Nat),
        Vault.removeAccount st i salt iv = (.error .lastAccountUndeletable, st)) ∧
    (1 < w.accounts.length →
      ∀ (i : Nat) (salt iv : List Nat), (∀ a ∈ w.accounts, a.index ≠ i) →
        Vault.removeAccount st i salt iv = (.error .accountNotFound, st)) := by
  constructor
  · intro hlen i salt iv
    have hle : w.accounts.length ≤ 1 := by omega
    simp [Vault.removeAccount, hw, hle]
  · intro hlen i salt iv habs
    have hle : ¬w.accounts.length ≤ 1 := by omega
    have hfind : w.accounts.findIdx? (fun a => a.index == i) = none := by
      rw [List.findIdx?_eq_none_iff]
      intro a ha
      simpa using habs a ha
    simp [Vault.removeAccount, hw, hle, hfind]

/-- Witness for C9: both error cases at concrete wallets. -/
theorem removeAccount_error_cases_witness :
    Vault.removeAccount (unlockedState sampleWallet "Password1") 0 [5] [6]
      = (.error .lastAccountUndeletable, unlockedState sampleWallet "Password1") ∧
    Vault.removeAccount (unlockedState sampleWallet2 "Password1") 9 [5] [6]
      = (.error .accountNotFound, unlockedState sampleWallet2 "Password1") :=
  ⟨(removeAccount_error_cases (unlockedState sampleWallet "Password1")
      sampleWallet rfl).1 (by decide) 0 [5] [6],
   (removeAccount_error_cases (unlockedState sampleWallet2 "Password1")
      sampleWallet2 rfl).2 (by decide) 9 [5] [6] (by decide)⟩

/-! ## Claim C10 -/

/-- Claim C10: `shouldAutoLock` is false when the effective timeout is 0 or
no activity was recorded; otherwise (for recorded timestamps, which come
from `Date.now()` and are positive) it is true exactly when the elapsed time
strictly exceeds the timeout converted from minutes to milliseconds. -/
theorem shouldAutoLock_spec (st : Vault.VaultState) (now : Nat) :
    (Vault.getAutoLockTimeout st = 0 → Vault.shouldAutoLock st now = false) ∧
    (st.lastActivity = none → Vault.shouldAutoLock st now = false) ∧
    (∀ la : Nat, st.lastActivity = some la → 0 < la →
      Vault.getAutoLockTimeout st ≠ 0 →
      (Vault.shouldAutoLock st now = true ↔
        (now : Int) - (la : Int) > (Vault.getAutoLockTimeout st : Int) * 60 * 1000)) := by
  refine ⟨fun h0 => ?_, fun hn => ?_, fun la hla hpos h0 => ?_⟩
  · simp [Vault.shouldAutoLock, h0]
  · simp [Vault.shouldAutoLock, hn]
  · have hne : la ≠ 0 := by omega
    simp [Vault.shouldAutoLock, hla, h0, hne]

/-- Witness for C10: a disabled timeout, a missing timestamp, and a
2-minutes-stale timestamp against a 1-minute timeout. -/
theorem shouldAutoLock_spec_witness :
    Vault.shouldAutoLock
      { walletData := none, currentPassword := none, cachedKey := none,
        cachedSalt := none, storedVault := none, session := none,
        lastActivity := some 60000, autoLockTimeout := some 0, kdfCalls := 0 }
      999999999 = false ∧
    Vault.shouldAutoLock
      { walletData := none, currentPassword := none, cachedKey := none,
        cachedSalt := none, storedVault := none, session := none,
        lastActivity := some 60000, autoLockTimeout := some 1, kdfCalls := 0 }
      180001 = true := by
  constructor
  · exact (shouldAutoLock_spec
      { walletData := none, currentPassword := none, cachedKey := none,
        cachedSalt := none, storedVault := none, session := none,
        lastActivity := some 60000, autoLockTimeout := some 0, kdfCalls := 0 }
      999999999).1 rfl
  · exact ((shouldAutoLock_spec
      { walletData := none, currentPassword := none, cachedKey := none,
        cachedSalt := none, storedVault := none, session := none,
        lastActivity := some 60000, autoLockTimeout := some 1, kdfCalls := 0 }
      180001).2.2 60000 rfl (by decide) (by decide)).mpr (by decide)

end OctraWallet
